import Mathlib

/-!
A shallow embedding of `router.go` from the `yar` package (Yet Another Router),
together with proofs about its route-registration pipeline, dispatch algorithm
and query-store read-back function.

Go strings are modelled as `List Char` (all strings handled by the claims are
ASCII, where Go's byte-wise operations and the character-wise model agree);
`len` on a Go string is modelled by `goLen`, the UTF-8 byte length.
Go maps that the code only looks up and inserts into are modelled as
association lists.  Compiled regular expressions (`*regexp.Regexp`) are
modelled by the structure `GoRegexp`: the textual source (what `String()`
returns) plus the two observations the router makes of a compiled pattern,
`MatchString` and `FindStringSubmatch`.  A concrete, executable model
`goCompile` of `regexp.MustCompile` for the fragment of regular-expression
syntax this repository generates is given further down.
-/

namespace Yar

abbrev Str := List Char

/-- Model of Go's `len` on a string: the UTF-8 byte length. -/
def goLen (s : Str) : Nat := (s.map Char.utf8Size).sum

/-- The character class `[A-z0-9_]` appearing in both `ParamRegex`
(`"<([A-z0-9_]*?)>"`, router.go line 14) and `ParamMatch`
(`"([A-z0-9_].*?)"`, line 15).  Note the range `A-z`, which also covers the
ASCII characters between `Z` and `a`. -/
def paramChar (c : Char) : Bool :=
  (decide ('A' ≤ c) && decide (c ≤ 'z')) || (decide ('0' ≤ c) && decide (c ≤ '9')) || c == '_'

/-- The replacement text `ParamMatch = "([A-z0-9_].*?)"` (router.go line 15),
written as an explicit character list. -/
def paramMatchStr : Str :=
  ['(', '[', 'A', '-', 'z', '0', '-', '9', '_', ']', '.', '*', '?', ')']

/-- One left-to-right pass implementing `regexp.MustCompile(ParamRegex).FindAllString(s, -1)`:
the non-overlapping, leftmost matches of `<([A-z0-9_]*?)>`.  The scanner state is
`none` outside a candidate token and `some acc` after an unclosed `<` with the
(reversed) name characters read so far; a character that is neither a name
character nor `>` aborts the candidate, and a fresh `<` restarts one (matching
the regular expression's behaviour of retrying from the next position, since a
name character can never itself start a match). -/
def scanAux : Str → Option Str → List Str
  | [], _ => []
  | c :: rest, none => if c = '<' then scanAux rest (some []) else scanAux rest none
  | c :: rest, some acc =>
    if c = '>' then ('<' :: (acc.reverse ++ ['>'])) :: scanAux rest none
    else if paramChar c then scanAux rest (some (c :: acc))
    else if c = '<' then scanAux rest (some [])
    else scanAux rest none

/-- All variable tokens of a declaration, in left-to-right order
(`re.FindAllString(pattern, -1)` with `re = MustCompile(ParamRegex)`). -/
def scanTokens (s : Str) : List Str := scanAux s none

/-- `strings.Replace(s, old, new, 1)`: replace the first occurrence of `old`. -/
def replaceFirstAux (old new : Str) : Str → Str
  | [] => []
  | c :: r =>
    if old.isPrefixOf (c :: r) then new ++ (c :: r).drop old.length
    else c :: replaceFirstAux old new r

/-- `strings.Replace(s, old, new, 1)` (Go inserts `new` once at the start when
`old` is empty). -/
def replaceFirst (s old new : Str) : Str :=
  if old.isEmpty then new ++ s else replaceFirstAux old new s

/-- `vn[1:len(vn)-1]` (router.go line 139): strip the `<` and `>` characters
of a token (ASCII, so byte slicing and character slicing agree). -/
def stripAngles (vn : Str) : Str := (vn.drop 1).dropLast

/-- The loop of `addProcessedParameterRoute` (router.go lines 134-140): fold
over the found tokens, replacing the first occurrence of each token text with
`ParamMatch` and accumulating the bracket-stripped variable names. -/
def processParams (pattern : Str) : Str × List Str :=
  (scanTokens pattern).foldl
    (fun acc vn => (replaceFirst acc.1 vn paramMatchStr, acc.2 ++ [stripAngles vn]))
    (pattern, [])

/-- The characters escaped by `regexp.QuoteMeta`. -/
def isSpecialByte (c : Char) : Bool :=
  c == '\\' || c == '.' || c == '+' || c == '*' || c == '?' || c == '(' || c == ')' ||
  c == '|' || c == '[' || c == ']' || c == '\x7b' || c == '\x7d' || c == '^' || c == '$'

/-- Model of `regexp.QuoteMeta`. -/
def quoteMeta (s : Str) : Str :=
  s.foldr (fun c acc => if isSpecialByte c then '\\' :: c :: acc else c :: acc) []

/-- Model of a compiled `*regexp.Regexp`: its textual source (`String()`)
together with the two observations the router makes of it. -/
structure GoRegexp where
  source : Str
  matchString : Str → Bool
  findStringSubmatch : Str → Option (List Str)

/-- A request: its URL path and its query store.  The store models the
key/value pairs of `r.URL.RawQuery` in order (also what `r.URL.Query()` /
`r.Form` parse to for a GET request, grouped by key). -/
structure Request where
  path : Str
  query : List (Str × Str)
deriving Repr, DecidableEq

/-- `ParameterRoute` (router.go lines 25-29). -/
structure ParameterRoute (H : Type) where
  Func : H
  VarNames : List Str
  Regexp : GoRegexp

/-- The `http.HandlerFunc` values the router actually stores in its pattern
list: either a plain user handler, or the bound method `pr.ServeHTTP` of a
`ParameterRoute` (the variable carrier). -/
inductive StoredFunc (H : Type) where
  | plain (h : H)
  | carrier (pr : ParameterRoute H)

/-- `Route` (router.go lines 19-22). -/
structure Route (H : Type) where
  Pattern : GoRegexp
  Func : StoredFunc H

/-- `Router` (router.go lines 65-77). -/
structure Router (H : Type) where
  FixedRoutes : List (Str × H)
  Routes : List (Route H)
  Strip : Bool
  Log : Bool
  CheckRegexp : Bool
  NotFound : H

variable {H : Type}

/-- `NewRouter` (router.go lines 80-89); the default `NotFound` handler
(`http.NotFound`) is an opaque handler value supplied by the caller. -/
def newRouter (notFound : H) : Router H :=
  { FixedRoutes := [], Routes := [], Strip := false, Log := false,
    CheckRegexp := true, NotFound := notFound }

/-- The comparison `Routes.Less i j` (router.go lines 59-61):
`len(r[i].Pattern.String()) > len(r[j].Pattern.String())`. -/
def routeLtB (a b : Route H) : Bool := decide (goLen b.Pattern.source < goLen a.Pattern.source)

/-- Non-strict version of the route comparison: `a` may sit before `b`. -/
def routeLeB (a b : Route H) : Bool := decide (goLen b.Pattern.source ≤ goLen a.Pattern.source)

/-- Adjacent-pairs check of a binary relation along a list. -/
def chainB (good : α → α → Bool) : List α → Bool
  | [] => true
  | [_] => true
  | a :: b :: t => good a b && chainB good (b :: t)

/-- A route list is ordered by descending textual length of the pattern
sources (the order `sort.Sort(Routes)` establishes). -/
def sortedByLenDesc (l : List (Route H)) : Bool := chainB routeLeB l

/-- The contract of Go's `sort.Sort` on `Routes` (package `sort`): the result
is a permutation of the input, ordered with respect to `Routes.Less`.  The
relative order of entries the comparison ties (equal source lengths) is NOT
specified: `sort.Sort` is documented as not guaranteed to be stable. -/
def GoSortOK (srt : List (Route H) → List (Route H)) : Prop :=
  ∀ l, (srt l).Perm l ∧ sortedByLenDesc (srt l) = true

/-- Insert an element into a list, before the first element `y` with
`le x y`. -/
def insertBy (le : α → α → Bool) (x : α) : List α → List α
  | [] => [x]
  | y :: ys => if le x y then x :: y :: ys else y :: insertBy le x ys

/-- Insertion sort (stable for a total `le`). -/
def sortBy (le : α → α → Bool) (l : List α) : List α := l.foldr (insertBy le) []

/-- A conforming implementation of the `sort.Sort` contract on `Routes`:
stable insertion sort on non-strict descending source length. -/
def stdSort : List (Route H) → List (Route H) :=
  sortBy (fun a b => decide (goLen b.Pattern.source ≤ goLen a.Pattern.source))

/-- Another conforming implementation of the `sort.Sort` contract on
`Routes`: insertion sort on strict descending source length, which places an
element after every element of equal source length it is compared with, and
thereby reverses the relative order of equal-length entries. -/
def tieReversingSort : List (Route H) → List (Route H) :=
  sortBy (routeLtB)

/-- `addFixedRoute` (router.go lines 108-114).  Returns the error result
paired with the updated router (mutation of the receiver is modelled by
returning the new state). -/
def addFixedRoute (rtr : Router H) (pattern : Str) (f : H) : Option Str × Router H :=
  if ((rtr.FixedRoutes.lookup pattern).isSome) then
    (some ("Key exists: ".toList ++ pattern), rtr)
  else
    (none, { rtr with FixedRoutes := rtr.FixedRoutes ++ [(pattern, f)] })

/-- `addRoute` (router.go lines 116-126), parameterized by the ambient
`regexp.MustCompile` (`mc`) and by the implementation of `sort.Sort` (`srt`).
The duplicate check compares `r.Pattern.String() == re.String()`; on success
the new route is appended and the list re-sorted. -/
def addRoute (mc : Str → GoRegexp) (srt : List (Route H) → List (Route H))
    (rtr : Router H) (pattern : Str) (f : StoredFunc H) : Option Str × Router H :=
  let re := mc pattern
  if rtr.Routes.any (fun r => r.Pattern.source == re.source) then
    (some ("Key exists: ".toList ++ pattern), rtr)
  else
    (none, { rtr with Routes := srt (rtr.Routes ++ [{ Pattern := re, Func := f }]) })

/-- `addProcessedParameterRoute` (router.go lines 133-143).  Note that the
error returned by `addRoute` on line 142 is discarded. -/
def addProcessedParameterRoute (mc : Str → GoRegexp) (srt : List (Route H) → List (Route H))
    (rtr : Router H) (pattern : Str) (f : H) : Router H :=
  let res := processParams pattern
  let pr : ParameterRoute H := { Func := f, VarNames := res.2, Regexp := mc res.1 }
  (addRoute mc srt rtr res.1 (.carrier pr)).2

/-- `HandleFunc` (router.go lines 91-106), the public registration entry
point.  It returns nothing: the error results of `addFixedRoute` and
`addRoute` are discarded. -/
def handleFunc (mc : Str → GoRegexp) (srt : List (Route H) → List (Route H))
    (rtr : Router H) (pattern : Str) (f : H) : Router H :=
  let vars := scanTokens pattern
  if vars.length > 0 then
    addProcessedParameterRoute mc srt rtr pattern f
  else if rtr.CheckRegexp then
    if quoteMeta pattern == pattern then (addFixedRoute rtr pattern f).2
    else (addRoute mc srt rtr pattern (.plain f)).2
  else (addFixedRoute rtr pattern f).2

/-- `strings.HasSuffix`. -/
def hasSuffix (s suffix : Str) : Bool := suffix.isSuffixOf s

/-- `strings.TrimSuffix`. -/
def trimSuffix (s suffix : Str) : Str :=
  if hasSuffix s suffix then s.take (s.length - suffix.length) else s

/-- The path normalization at the top of `Router.ServeHTTP` (router.go lines
146-153): strip one trailing `/` when `Strip` is set, the path is longer than
one byte and ends with `/`. -/
def effectivePath (strip : Bool) (path : Str) : Str :=
  if strip && decide (1 < goLen path) && hasSuffix path "/".toList then
    trimSuffix path "/".toList
  else path

/-- The result of one dispatch: the single handler invoked together with the
request it receives, or a runtime fault (Go panic) raised inside the variable
carrier. -/
abbrev DispatchResult (H : Type) := Except Unit (H × Request)

/-- Byte-wise lexicographic strict order on strings (the order `sort.Strings`
uses inside `url.Values.Encode`). -/
def strLt : Str → Str → Bool
  | [], [] => false
  | [], _ :: _ => true
  | _ :: _, [] => false
  | a :: s, b :: t => if a = b then strLt s t else decide (a < b)

/-- Key-wise comparison used to model `url.Values.Encode`, which emits keys in
sorted order (value order within a key is preserved). -/
def keyLe (a b : Str × Str) : Bool := !(strLt b.1 a.1)

/-- Pair the variable names with the extracted values, mirroring the loop
`for i, vn := range pr.VarNames { form.Add(vn, vars[i]) }` (router.go lines
40-42): the indexing `vars[i]` panics (modelled as `none`) when there are
fewer values than names. -/
def pairVars : List Str → List Str → Option (List (Str × Str))
  | [], _ => some []
  | _ :: _, [] => none
  | vn :: vns, v :: vs => (pairVars vns vs).map (fun rest => (vn, v) :: rest)

/-- `ParameterRoute.ServeHTTP` (router.go lines 37-46), the variable carrier.
It re-runs the match against the request's original path; the `[1:]` on a
`nil` result of `FindStringSubmatch` is an out-of-range panic, modelled as
`Except.error`.  The prepend `form.Encode() + "&" + r.URL.RawQuery` is
modelled on the parsed store: the new pairs, sorted by key as `Encode` does,
go in front of the existing pairs. -/
def prServeHTTP (pr : ParameterRoute H) (r : Request) : DispatchResult H :=
  match pr.Regexp.findStringSubmatch r.path with
  | none => .error ()
  | some sub =>
    match pairVars pr.VarNames (sub.drop 1) with
    | none => .error ()
    | some form => .ok (pr.Func, { r with query := sortBy keyLe form ++ r.query })

/-- Invoke a stored handler function on a request. -/
def invokeFunc : StoredFunc H → Request → DispatchResult H
  | .plain h, r => .ok (h, r)
  | .carrier pr, r => prServeHTTP pr r

/-- The loop over `rtr.Routes` in `Router.ServeHTTP` (router.go lines
161-166): first route whose pattern matches the path. -/
def findRouteLoop : List (Route H) → Str → Option (Route H)
  | [], _ => none
  | rr :: rest, path =>
    if rr.Pattern.matchString path then some rr else findRouteLoop rest path

/-- `Router.ServeHTTP` (router.go lines 145-169): normalize the path, try the
fixed-route map, then the pattern list in stored order, then the `NotFound`
handler.  Each branch returns, so exactly one handler is invoked. -/
def serveHTTP (rtr : Router H) (req : Request) : DispatchResult H :=
  let path := effectivePath rtr.Strip req.path
  match rtr.FixedRoutes.lookup path with
  | some f => .ok (f, req)
  | none =>
    match findRouteLoop rtr.Routes path with
    | some rr => invokeFunc rr.Func req
    | none => .ok (rtr.NotFound, req)

/-- The values stored for key `k`, in order, in a query store (what
`r.URL.Query()[k]` and, for a GET request, `r.Form[k]` hold). -/
def queryValues (st : List (Str × Str)) (k : Str) : List Str :=
  (st.filter (fun p => p.1 == k)).map (fun p => p.2)

/-- The single-value map `m` built by `Parse` (router.go lines 173-176):
`m[k] = v[0]`. -/
def parseSingle (st : List (Str × Str)) (k : Str) : Option Str :=
  (queryValues st k).head?

/-- The inner loop of `Parse` (router.go lines 186-191): find the first value
equal to `m[k]` and remove it (`append(values[:i], values[i+1:]...)`); if no
value matches, `form[k]` is never assigned. -/
def removeFirstEq : List Str → Str → Option (List Str)
  | [], _ => none
  | v :: vs, x => if v == x then some vs else (removeFirstEq vs x).map (fun r => v :: r)

/-- The multi-value map `form` built by `Parse` (router.go lines 178-193),
per key, for a GET request (where `r.Form` and `r.URL.Query()` coincide, both
modelled by the same store `st`).  Note the test on line 185 is
`len(mValues) > 1` where `mValues` is the string `m[k]`: it compares the BYTE
LENGTH OF THE FIRST VALUE, not the number of stored values. -/
def parseMulti (st : List (Str × Str)) (k : Str) : Option (List Str) :=
  match queryValues st k with
  | [] => none
  | v :: vs =>
    match parseSingle st k with
    | none => some (v :: vs)
    | some mv => if decide (1 < goLen mv) then removeFirstEq (v :: vs) mv else none

/-- A string with no `<` character (such strings are skipped unchanged by the
token scanner). -/
def angleFree (s : Str) : Bool := s.all (fun ch => ch != '<')

/-- A valid variable name for the class of `ParamRegex`. -/
def nameOk (s : Str) : Bool := s.all paramChar

/-- A string with no `(` and no `\` character (it can contribute no capturing
group and cannot escape a following character). -/
def grpFree (s : Str) : Bool := s.all (fun ch => ch != '(' && ch != '\\')

/-- Build the part of a declaration after its leading literal chunk from
(name, following-chunk) pairs: `<n₁>c₁<n₂>c₂…`. -/
def renderParts : List (Str × Str) → Str
  | [] => []
  | (n, c) :: rest => '<' :: (n ++ ('>' :: (c ++ renderParts rest)))

/-- A declaration with an explicit token structure: a leading literal chunk
followed by alternating variable tokens and literal chunks. -/
def renderDecl (c0 : Str) (parts : List (Str × Str)) : Str := c0 ++ renderParts parts

/-- Well-formedness of an explicit token structure: chunks contain no `<` and
names consist of name-class characters, so that the scanner recognizes
exactly the listed tokens. -/
def partsOk (c0 : Str) (parts : List (Str × Str)) : Bool :=
  angleFree c0 && parts.all (fun p => nameOk p.1 && angleFree p.2)

/-- The result of substituting `ParamMatch` for every token of a rendered
declaration: `c₀(…)c₁(…)c₂…`. -/
def renderRepl : List (Str × Str) → Str
  | [] => []
  | (_, c) :: rest => paramMatchStr ++ (c ++ renderRepl rest)

/-- Number of capturing groups of a pattern, modelled from Go's `regexp`
syntax: an unescaped `(` opens a capturing group unless followed by `?` (the
`(?P<name>` form, which is also capturing, does not occur in this
development). -/
def countCaptureGroups : Str → Nat
  | [] => 0
  | c :: rest =>
    if c = '\\' then
      match rest with
      | [] => 0
      | _ :: r => countCaptureGroups r
    else if c = '(' then
      (if rest.head? = some '?' then 0 else 1) + countCaptureGroups rest
    else countCaptureGroups rest

/-- Modelled from the spec: the variable-name character class the
specification states, `[A-Za-z0-9_]` (§4.1), for comparison with the
source's `[A-z0-9_]`. -/
def specVarNameChar (c : Char) : Bool :=
  (decide ('A' ≤ c) && decide (c ≤ 'Z')) || (decide ('a' ≤ c) && decide (c ≤ 'z')) ||
  (decide ('0' ≤ c) && decide (c ≤ '9')) || c == '_'

/-- Modelled from the spec: the replacement the specification describes for a
variable token, a capturing wildcard "one or more of any character, lazily
matched" (§4.1), i.e. `(.+?)`. -/
def specParamMatch : Str := "(.+?)".toList

/-- Modelled from the spec: the declaration compiled with the spec's wildcard
replacement instead of the source's `ParamMatch`. -/
def specNewPattern (pattern : Str) : Str :=
  (scanTokens pattern).foldl (fun acc vn => replaceFirst acc vn specParamMatch) pattern

/-!
An executable model of Go's `regexp` package for the fragment of syntax
generated and used by this repository: literal characters, escaped literals,
character classes of ranges, `.`, `$`, capturing groups, and the postfix
repetitions `*`, `*?`, `+`, `+?` (no alternation, no negated classes).
Matching is leftmost, and among the matches at the leftmost position the one a
preference-order backtracking search finds first, which is the submatch
semantics Go's `regexp` documents.  `regexp.MustCompile` panics on a pattern
it cannot parse; `goCompile` is only ever evaluated on patterns the fragment
parser accepts.
-/

/-- Abstract syntax of the regular-expression fragment. -/
inductive Rx where
  | eps : Rx
  | lit : Char → Rx
  | cls : List (Char × Char) → Rx
  | dot : Rx
  | eos : Rx
  | grp : Nat → Rx → Rx
  | cat : Rx → Rx → Rx
  | star : Bool → Rx → Rx
deriving Repr

/-- Node count, used to bound the matcher's fuel. -/
def rxMeasure : Rx → Nat
  | .eps => 1
  | .lit _ => 1
  | .cls _ => 1
  | .dot => 1
  | .eos => 1
  | .grp _ a => 1 + rxMeasure a
  | .cat a b => 1 + rxMeasure a + rxMeasure b
  | .star _ a => 1 + rxMeasure a

/-- Membership in a class given as a list of ranges. -/
def clsMem (ranges : List (Char × Char)) (c : Char) : Bool :=
  ranges.any (fun p => decide (p.1 ≤ c) && decide (c ≤ p.2))

/-- Capture environment: group index paired with the captured substring; the
most recent capture of a group is first. -/
abbrev Caps := List (Nat × Str)

/-- Backtracking matcher in continuation-passing style.  The continuation
receives the remaining input and the captures; `true` in `star` means lazy
(try the continuation before iterating).  `fuel` bounds the depth of nested
matcher calls and is decremented at every call, so the recursion is
structural; the generous fuel chosen in `matchHere` is never exhausted on the
patterns of this development, where every star iteration consumes input. -/
def mrun : Nat → Rx → Str → Caps → (Str → Caps → Option (Caps × Str)) → Option (Caps × Str)
  | 0, _, _, _, _ => none
  | f + 1, re, s, caps, k =>
    match re with
    | .eps => k s caps
    | .lit c =>
      match s with
      | [] => none
      | a :: r => if a = c then k r caps else none
    | .cls rs =>
      match s with
      | [] => none
      | a :: r => if clsMem rs a then k r caps else none
    | .dot =>
      match s with
      | [] => none
      | a :: r => if a = '\n' then none else k r caps
    | .eos => if s.isEmpty then k s caps else none
    | .grp i a =>
      mrun f a s caps
        (fun s2 caps2 => k s2 ((i, s.take (s.length - s2.length)) :: caps2))
    | .cat a b =>
      mrun f a s caps (fun s2 caps2 => mrun f b s2 caps2 k)
    | .star lz a =>
      if lz then
        match k s caps with
        | some res => some res
        | none => mrun f a s caps (fun s2 caps2 => mrun f (.star lz a) s2 caps2 k)
      else
        match mrun f a s caps (fun s2 caps2 => mrun f (.star lz a) s2 caps2 k) with
        | some res => some res
        | none => k s caps

/-- Match `re` at the start of `s`: captures and remaining input of the first
match in preference order. -/
def matchHere (re : Rx) (s : Str) : Option (Caps × Str) :=
  mrun ((rxMeasure re + 2) * (s.length + 2)) re s [] (fun s2 caps2 => some (caps2, s2))

/-- Leftmost search: try each start position left to right.  Returns the
number of characters skipped, the captures and the remaining input. -/
def searchR (re : Rx) : Str → Option (Nat × Caps × Str)
  | [] =>
    match matchHere re [] with
    | some (caps, rem) => some (0, caps, rem)
    | none => none
  | c :: r =>
    match matchHere re (c :: r) with
    | some (caps, rem) => some (0, caps, rem)
    | none =>
      match searchR re r with
      | some (j, caps, rem) => some (j + 1, caps, rem)
      | none => none

/-- `Regexp.MatchString`. -/
def matchStringRx (re : Rx) (s : Str) : Bool := (searchR re s).isSome

/-- `Regexp.FindStringSubmatch` given the number of capturing groups: the
full match followed by one entry per group (empty for a group that did not
participate), or `none` (Go: `nil`) when there is no match. -/
def findStringSubmatchRx (re : Rx) (ng : Nat) (s : Str) : Option (List Str) :=
  match searchR re s with
  | none => none
  | some (j, caps, rem) =>
    let full := (s.drop j).take (s.length - j - rem.length)
    some (full :: (List.range ng).map (fun i => ((caps.lookup (i + 1)).getD [])))

/-- Parse a character class body (after `[`), up to the closing `]`. -/
def parseCls : Nat → Str → Option (List (Char × Char) × Str)
  | 0, _ => none
  | _ + 1, [] => none
  | f + 1, c :: rest =>
    if c = ']' then some ([], rest)
    else if c = '^' || c = '\\' then none
    else
      match rest with
      | '-' :: d :: rest2 =>
        if d = ']' then none
        else (parseCls f rest2).map (fun p => ((c, d) :: p.1, p.2))
      | _ => (parseCls f rest).map (fun p => ((c, c) :: p.1, p.2))

/-- Parse a concatenation, stopping at `)` or the end; `g` is the next free
capturing-group index.  Returns the parsed expression, the unconsumed input
and the next free group index. -/
def parseSeq : Nat → Str → Nat → Option (Rx × Str × Nat)
  | 0, _, _ => none
  | _ + 1, [], g => some (.eps, [], g)
  | f + 1, c :: rest, g =>
    if c = ')' then some (.eps, c :: rest, g)
    else
      let atomRes : Option (Rx × Str × Nat) :=
        if c = '(' then
          match parseSeq f rest (g + 1) with
          | some (inner, ')' :: rest2, g2) => some (.grp g inner, rest2, g2)
          | _ => none
        else if c = '[' then
          match parseCls (rest.length + 1) rest with
          | some (rs, rest2) => some (.cls rs, rest2, g)
          | none => none
        else if c = '.' then some (.dot, rest, g)
        else if c = '$' then some (.eos, rest, g)
        else if c = '\\' then
          match rest with
          | d :: rest2 => some (.lit d, rest2, g)
          | [] => none
        else if c = '*' || c = '+' || c = '?' || c = '|' || c = '^' || c = ']' ||
                c = '\x7b' || c = '\x7d' then none
        else some (.lit c, rest, g)
      match atomRes with
      | none => none
      | some (atom, rest2, g2) =>
        let pieceRest : Rx × Str :=
          match rest2 with
          | '*' :: '?' :: r3 => (Rx.star true atom, r3)
          | '*' :: r3 => (Rx.star false atom, r3)
          | '+' :: '?' :: r3 => (Rx.cat atom (Rx.star true atom), r3)
          | '+' :: r3 => (Rx.cat atom (Rx.star false atom), r3)
          | _ => (atom, rest2)
        match parseSeq f pieceRest.2 g2 with
        | some (tailRx, rest4, g3) => some (.cat pieceRest.1 tailRx, rest4, g3)
        | none => none

/-- Parse a whole pattern: the expression and its number of capturing
groups. -/
def parseRegexp (p : Str) : Option (Rx × Nat) :=
  match parseSeq (2 * p.length + 2) p 1 with
  | some (re, [], g) => some (re, g - 1)
  | _ => none

/-- Concrete model of `regexp.MustCompile` on the fragment.  On a pattern
outside the fragment it returns an inert matcher; `MustCompile` itself would
panic on an invalid pattern, and no concrete pattern evaluated in this
development falls outside the fragment. -/
def goCompile (p : Str) : GoRegexp :=
  match parseRegexp p with
  | some (re, ng) =>
    { source := p, matchString := fun s => matchStringRx re s,
      findStringSubmatch := fun s => findStringSubmatchRx re ng s }
  | none =>
    { source := p, matchString := fun _ => false, findStringSubmatch := fun _ => none }

/-! ### Sorting lemmas -/

theorem insertBy_perm (le : α → α → Bool) (x : α) (l : List α) :
    (insertBy le x l).Perm (x :: l) := by
  induction l with
  | nil => simp [insertBy]
  | cons y ys ih =>
    simp only [insertBy]
    split
    · exact List.Perm.refl _
    · exact (ih.cons y).trans (List.Perm.swap x y ys)

theorem sortBy_perm (le : α → α → Bool) (l : List α) : (sortBy le l).Perm l := by
  induction l with
  | nil => simp [sortBy]
  | cons x xs ih =>
    simpa [sortBy] using (insertBy_perm le x (sortBy le xs)).trans (ih.cons x)

theorem chainB_insertBy (le good : α → α → Bool)
    (h1 : ∀ a b, le a b = true → good a b = true)
    (h2 : ∀ a b, le a b = false → good b a = true)
    (x : α) : ∀ l, chainB good l = true → chainB good (insertBy le x l) = true := by
  intro l
  induction l with
  | nil => intro _; simp [insertBy, chainB]
  | cons y ys ih =>
    intro hl
    by_cases hxy : le x y = true
    · simp only [insertBy, hxy, if_true, chainB]
      simp [h1 x y hxy, hl]
    · rw [Bool.not_eq_true] at hxy
      simp only [insertBy, hxy, Bool.false_eq_true, if_false]
      cases ys with
      | nil => simp [insertBy, chainB, h2 x y hxy]
      | cons z zs =>
        have hl' : good y z = true ∧ chainB good (z :: zs) = true := by
          simpa [chainB, Bool.and_eq_true] using hl
        by_cases hxz : le x z = true
        · simp only [insertBy, hxz, if_true, chainB, Bool.and_eq_true]
          exact ⟨h2 x y hxy, h1 x z hxz, hl'.2⟩
        · rw [Bool.not_eq_true] at hxz
          have hrec : chainB good (insertBy le x (z :: zs)) = true := ih hl'.2
          simp only [insertBy, hxz, Bool.false_eq_true, if_false] at hrec ⊢
          simpa [chainB, Bool.and_eq_true, hl'.1] using hrec

theorem chainB_sortBy (le good : α → α → Bool)
    (h1 : ∀ a b, le a b = true → good a b = true)
    (h2 : ∀ a b, le a b = false → good b a = true)
    (l : List α) : chainB good (sortBy le l) = true := by
  induction l with
  | nil => simp [sortBy, chainB]
  | cons x xs ih => simpa [sortBy] using chainB_insertBy le good h1 h2 x _ ih

theorem stdSort_ok : GoSortOK (stdSort (H := H)) := by
  intro l
  refine ⟨sortBy_perm _ l, ?_⟩
  refine chainB_sortBy _ _ (fun a b h => h) (fun a b h => ?_) l
  simp only [routeLeB, decide_eq_true_eq, decide_eq_false_iff_not, not_le] at h ⊢
  omega

theorem tieReversingSort_ok : GoSortOK (tieReversingSort (H := H)) := by
  intro l
  refine ⟨sortBy_perm _ l, ?_⟩
  refine chainB_sortBy _ _ (fun a b h => ?_) (fun a b h => ?_) l
  · simp only [routeLtB, decide_eq_true_eq] at h
    simp only [routeLeB, decide_eq_true_eq]
    omega
  · simp only [routeLtB, decide_eq_false_iff_not, not_lt] at h
    simp only [routeLeB, decide_eq_true_eq]
    omega

/-! ### Token-scanner lemmas -/

theorem scanAux_chunk (c : Str) (s : Str) (hc : angleFree c = true) :
    scanAux (c ++ s) none = scanAux s none := by
  induction c with
  | nil => rfl
  | cons a t ih =>
    have ha : (a != '<') = true ∧ angleFree t = true := by
      simpa [angleFree, Bool.and_eq_true] using hc
    have ha' : ¬(a = '<') := by simpa using ha.1
    simp [scanAux, ha', ih ha.2]

theorem scanAux_name (n : Str) (s : Str) (acc : Str) (hn : nameOk n = true) :
    scanAux (n ++ '>' :: s) (some acc) =
      ('<' :: ((acc.reverse ++ n) ++ ['>'])) :: scanAux s none := by
  induction n generalizing acc with
  | nil => simp [scanAux]
  | cons c t ih =>
    have hc : paramChar c = true ∧ nameOk t = true := by
      simpa [nameOk, Bool.and_eq_true] using hn
    have hcg : ¬(c = '>') := by
      intro h
      rw [h] at hc
      exact absurd hc.1 (by decide)
    have := ih (c :: acc) hc.2
    simp only [List.cons_append, scanAux, hcg, if_false, hc.1, if_true]
    simpa [List.reverse_cons, List.append_assoc] using this

theorem scanTokens_render (parts : List (Str × Str)) : ∀ c0 : Str,
    partsOk c0 parts = true →
    scanTokens (renderDecl c0 parts) = parts.map (fun p => '<' :: (p.1 ++ ['>'])) := by
  induction parts with
  | nil =>
    intro c0 hok
    have hc0 : angleFree c0 = true := by
      simpa [partsOk, Bool.and_eq_true] using hok
    have := scanAux_chunk c0 [] hc0
    simpa [scanTokens, renderDecl, renderParts, scanAux] using this
  | cons p rest ih =>
    intro c0 hok
    obtain ⟨n, c⟩ := p
    have hok' : angleFree c0 = true ∧ (nameOk n = true ∧ angleFree c = true) ∧
        ∀ a b, (a, b) ∈ rest → nameOk a = true ∧ angleFree b = true := by
      simpa [partsOk, Bool.and_eq_true] using hok
    have hc0 : angleFree c0 = true := hok'.1
    have hn : nameOk n = true := hok'.2.1.1
    have hc : angleFree c = true := hok'.2.1.2
    have hrest : partsOk c rest = true := by
      simp only [partsOk, Bool.and_eq_true, List.all_eq_true]
      refine ⟨hc, ?_⟩
      intro p hp
      have := hok'.2.2 p.1 p.2 (by simpa using hp)
      simpa [Bool.and_eq_true] using this
    have step1 : scanTokens (renderDecl c0 ((n, c) :: rest)) =
        scanAux ('<' :: (n ++ ('>' :: (c ++ renderParts rest)))) none := by
      simp [scanTokens, renderDecl, renderParts, scanAux_chunk _ _ hc0]
    rw [step1]
    simp only [scanAux, if_pos rfl]
    rw [scanAux_name n _ [] hn]
    have step2 : scanAux (c ++ renderParts rest) none = scanAux (renderParts rest) none :=
      scanAux_chunk c _ hc
    rw [step2]
    have := ih c hrest
    simp only [scanTokens, renderDecl] at this
    rw [scanAux_chunk c _ hc] at this
    simp [this]

/-! ### Replacement lemmas -/

theorem replaceFirstAux_skip_chunk (pre : Str) (t tail new : Str)
    (hpre : angleFree pre = true) :
    replaceFirstAux ('<' :: t) new (pre ++ (('<' :: t) ++ tail)) =
      pre ++ (new ++ tail) := by
  induction pre with
  | nil =>
    simp only [List.nil_append, replaceFirstAux]
    rw [if_pos]
    · simp [List.drop_left]
    · rw [List.isPrefixOf_iff_prefix]
      exact List.prefix_append _ _
  | cons a p ih =>
    have ha : (a != '<') = true ∧ angleFree p = true := by
      simpa [angleFree, Bool.and_eq_true] using hpre
    have ha' : ¬('<' = a) := by
      intro h
      rw [← h] at ha
      simpa using ha.1
    simp only [List.cons_append, replaceFirstAux, List.isPrefixOf]
    rw [if_neg]
    · have hx : p.append ('<' :: (t ++ tail)) = p ++ (('<' :: t) ++ tail) := by simp
      rw [hx, ih ha.2]
    · simp [ha']

theorem replaceFirst_at_token (pre : Str) (t tail new : Str)
    (hpre : angleFree pre = true) :
    replaceFirst (pre ++ (('<' :: t) ++ tail)) ('<' :: t) new = pre ++ (new ++ tail) := by
  simp only [replaceFirst, List.isEmpty, if_neg]
  exact replaceFirstAux_skip_chunk pre t tail new hpre

theorem angleFree_append (a b : Str) (ha : angleFree a = true) (hb : angleFree b = true) :
    angleFree (a ++ b) = true := by
  simp only [angleFree, List.all_append, Bool.and_eq_true]
  exact ⟨ha, hb⟩

theorem stripAngles_token (n : Str) : stripAngles ('<' :: (n ++ ['>'])) = n := by
  simp [stripAngles]

theorem processParams_fold (parts : List (Str × Str)) :
    ∀ (pre : Str) (acc : List Str), angleFree pre = true →
    (∀ p ∈ parts, angleFree p.2 = true) →
    (parts.map (fun p => '<' :: (p.1 ++ ['>']))).foldl
        (fun a vn => (replaceFirst a.1 vn paramMatchStr, a.2 ++ [stripAngles vn]))
        (pre ++ renderParts parts, acc) =
      (pre ++ renderRepl parts, acc ++ parts.map (fun p => p.1)) := by
  induction parts with
  | nil => intro pre acc _ _; simp [renderParts, renderRepl]
  | cons p rest ih =>
    intro pre acc hpre hchunks
    obtain ⟨n, c⟩ := p
    have hc : angleFree c = true := hchunks (n, c) (by simp)
    have hrest : ∀ p ∈ rest, angleFree p.2 = true := fun p hp => hchunks p (by simp [hp])
    have hshape : renderParts ((n, c) :: rest) = ('<' :: (n ++ ['>'])) ++ (c ++ renderParts rest) := by
      simp [renderParts, List.append_assoc]
    have hstep : replaceFirst (pre ++ renderParts ((n, c) :: rest)) ('<' :: (n ++ ['>'])) paramMatchStr =
        pre ++ (paramMatchStr ++ (c ++ renderParts rest)) := by
      rw [hshape]
      exact replaceFirst_at_token pre (n ++ ['>']) (c ++ renderParts rest) paramMatchStr hpre
    have hpm : angleFree paramMatchStr = true := by decide
    have hpre' : angleFree ((pre ++ paramMatchStr) ++ c) = true :=
      angleFree_append _ _ (angleFree_append _ _ hpre hpm) hc
    have := ih ((pre ++ paramMatchStr) ++ c) (acc ++ [n]) hpre' hrest
    simp only [List.map_cons, List.foldl_cons, hstep, stripAngles_token]
    have harg : pre ++ (paramMatchStr ++ (c ++ renderParts rest)) =
        ((pre ++ paramMatchStr) ++ c) ++ renderParts rest := by
      simp [List.append_assoc]
    rw [harg, this]
    simp [renderRepl, List.append_assoc]

theorem processParams_render (c0 : Str) (parts : List (Str × Str))
    (hok : partsOk c0 parts = true) :
    processParams (renderDecl c0 parts) =
      (c0 ++ renderRepl parts, parts.map (fun p => p.1)) := by
  have hc0 : angleFree c0 = true := by
    have := hok
    simp only [partsOk, Bool.and_eq_true] at this
    exact this.1
  have hchunks : ∀ p ∈ parts, angleFree p.2 = true := by
    intro p hp
    have h2 := hok
    simp only [partsOk, Bool.and_eq_true, List.all_eq_true] at h2
    exact (h2.2 p hp).2
  have htok := scanTokens_render parts c0 hok
  simp only [renderDecl] at htok
  simp only [processParams, renderDecl, htok]
  simpa using processParams_fold parts c0 [] hc0 hchunks

/-! ### Capturing-group counting lemmas -/

theorem countCaptureGroups_other (c : Char) (b : Str) (h1 : ¬(c = '\\')) (h2 : ¬(c = '(')) :
    countCaptureGroups (c :: b) = countCaptureGroups b := by
  unfold countCaptureGroups
  rw [if_neg h1, if_neg h2]
  rw [← countCaptureGroups.eq_def]

theorem countCaptureGroups_append (a : Str) (b : Str) (ha : grpFree a = true) :
    countCaptureGroups (a ++ b) = countCaptureGroups b := by
  induction a with
  | nil => simp
  | cons c t ih =>
    have hc : ((c != '(') && (c != '\\')) = true ∧ grpFree t = true := by
      simpa [grpFree, Bool.and_eq_true] using ha
    have h1 : ¬(c = '\\') := by
      have := hc.1
      simp only [Bool.and_eq_true, bne_iff_ne] at this
      exact this.2
    have h2 : ¬(c = '(') := by
      have := hc.1
      simp only [Bool.and_eq_true, bne_iff_ne] at this
      exact this.1
    rw [List.cons_append, countCaptureGroups_other c _ h1 h2]
    exact ih hc.2

theorem countCaptureGroups_open (c : Char) (b : Str) (hc : ¬(c = '?')) :
    countCaptureGroups ('(' :: (c :: b)) = 1 + countCaptureGroups (c :: b) := by
  conv_lhs => rw [countCaptureGroups.eq_def]
  simp [hc]

theorem countCaptureGroups_paramMatch (b : Str) :
    countCaptureGroups (paramMatchStr ++ b) = 1 + countCaptureGroups b := by
  have htail : countCaptureGroups
      ((['[', 'A', '-', 'z', '0', '-', '9', '_', ']', '.', '*', '?', ')'] : Str) ++ b) =
      countCaptureGroups b :=
    countCaptureGroups_append _ b (by decide)
  have hshape : paramMatchStr ++ b =
      '(' :: ('[' :: ((['A', '-', 'z', '0', '-', '9', '_', ']', '.', '*', '?', ')'] : Str) ++ b)) := by
    simp [paramMatchStr]
  rw [hshape, countCaptureGroups_open '[' _ (by decide)]
  have hre : '[' :: ((['A', '-', 'z', '0', '-', '9', '_', ']', '.', '*', '?', ')'] : Str) ++ b) =
      (['[', 'A', '-', 'z', '0', '-', '9', '_', ']', '.', '*', '?', ')'] : Str) ++ b := by
    simp
  rw [hre, htail]

theorem countCaptureGroups_renderRepl (parts : List (Str × Str)) :
    ∀ c0 : Str, grpFree c0 = true → (∀ p ∈ parts, grpFree p.2 = true) →
    countCaptureGroups (c0 ++ renderRepl parts) = parts.length := by
  induction parts with
  | nil =>
    intro c0 hc0 _
    simpa [renderRepl] using countCaptureGroups_append c0 [] hc0
  | cons p rest ih =>
    intro c0 hc0 hrest
    obtain ⟨n, c⟩ := p
    have hc : grpFree c = true := hrest (n, c) (by simp)
    have hrest' : ∀ p ∈ rest, grpFree p.2 = true := fun p hp => hrest p (by simp [hp])
    have h1 : countCaptureGroups (c0 ++ renderRepl ((n, c) :: rest)) =
        countCaptureGroups (paramMatchStr ++ (c ++ renderRepl rest)) := by
      rw [show c0 ++ renderRepl ((n, c) :: rest) =
            c0 ++ (paramMatchStr ++ (c ++ renderRepl rest)) from by simp [renderRepl]]
      exact countCaptureGroups_append c0 _ hc0
    rw [h1, countCaptureGroups_paramMatch]
    have h2 : countCaptureGroups (c ++ renderRepl rest) = rest.length := ih c hc hrest'
    rw [h2]
    simp [Nat.add_comm]

/-! ### Dispatch-loop lemmas -/

theorem findRouteLoop_none (l : List (Route H)) (p : Str)
    (h : ∀ rr ∈ l, rr.Pattern.matchString p = false) : findRouteLoop l p = none := by
  induction l with
  | nil => rfl
  | cons rr rest ih =>
    have h1 : rr.Pattern.matchString p = false := h rr (by simp)
    simp only [findRouteLoop, h1, Bool.false_eq_true, if_false]
    exact ih (fun r hr => h r (by simp [hr]))

theorem findRouteLoop_first (l : List (Route H)) (p : Str) :
    ∀ (i : Nat) (hi : i < l.length),
    ((l.take i).all (fun rr => !(rr.Pattern.matchString p))) = true →
    (l.get ⟨i, hi⟩).Pattern.matchString p = true →
    findRouteLoop l p = some (l.get ⟨i, hi⟩) := by
  induction l with
  | nil => intro i hi; simp at hi
  | cons rr rest ih =>
    intro i hi hskip hmatch
    cases i with
    | zero =>
      simp only [List.get] at hmatch
      simp [findRouteLoop, hmatch]
    | succ j =>
      have hrr : rr.Pattern.matchString p = false := by
        simp only [List.take_succ_cons, List.all_cons, Bool.and_eq_true] at hskip
        simpa using hskip.1
      have hskip' : ((rest.take j).all (fun rr => !(rr.Pattern.matchString p))) = true := by
        simp only [List.take_succ_cons, List.all_cons, Bool.and_eq_true] at hskip
        exact hskip.2
      simp only [findRouteLoop, hrr, Bool.false_eq_true, if_false]
      exact ih j (Nat.lt_of_succ_lt_succ hi) hskip' hmatch

/-! ### Claim C8 -/

/-- C8 (confirmed): a registration that fails because of a duplicate literal
path or a duplicate pattern source leaves the route table exactly as it was:
`addFixedRoute` and `addRoute` both detect the duplicate and return before
mutating anything, so no fixed-route entry is overwritten or removed and the
pattern list is neither extended nor reordered. -/
theorem c8_failed_registration_leaves_table_unchanged :
    (∀ (rtr : Router H) (p : Str) (f : H),
      (addFixedRoute rtr p f).1.isSome = true → (addFixedRoute rtr p f).2 = rtr) ∧
    (∀ (mc : Str → GoRegexp) (srt : List (Route H) → List (Route H))
        (rtr : Router H) (p : Str) (f : StoredFunc H),
      (addRoute mc srt rtr p f).1.isSome = true → (addRoute mc srt rtr p f).2 = rtr) := by
  constructor
  · intro rtr p f h
    by_cases hx : (rtr.FixedRoutes.lookup p).isSome = true
    · simp [addFixedRoute, hx]
    · simp [addFixedRoute, hx] at h
  · intro mc srt rtr p f h
    by_cases hx : (rtr.Routes.any (fun r => r.Pattern.source == (mc p).source)) = true
    · simp [addRoute, hx]
    · simp [addRoute, hx] at h

theorem c8_witness :
    ((addFixedRoute (H := Nat)
        (addFixedRoute (newRouter 0) "/a".toList 1).2 "/a".toList 2).2 =
      (addFixedRoute (H := Nat) (newRouter 0) "/a".toList 1).2) ∧
    ((addRoute goCompile stdSort
        (addRoute (H := Nat) goCompile stdSort (newRouter 0) "/b$".toList (.plain 1)).2
        "/b$".toList (.plain 2)).2 =
      (addRoute (H := Nat) goCompile stdSort (newRouter 0) "/b$".toList (.plain 1)).2) := by
  constructor
  · exact c8_failed_registration_leaves_table_unchanged.1 _ _ _ (by decide)
  · exact c8_failed_registration_leaves_table_unchanged.2 goCompile stdSort _ _ _ (by decide)

/-! ### Claim C2 -/

/-- C2 (amended): registering a duplicate literal path or a pattern whose
compiled source equals an existing pattern route's source makes the internal
`addFixedRoute`/`addRoute` return an error (`"Key exists: …"`) and leave the
router unchanged — but the public entry point `HandleFunc` discards that
error, so the duplicate registration is a silent no-op for the caller rather
than a surfaced `DuplicateRouteError`. -/
theorem c2_duplicate_error_internal_only :
    (∀ (rtr : Router H) (p : Str) (f : H), (rtr.FixedRoutes.lookup p).isSome = true →
      addFixedRoute rtr p f = (some ("Key exists: ".toList ++ p), rtr)) ∧
    (∀ (mc : Str → GoRegexp) (srt : List (Route H) → List (Route H))
        (rtr : Router H) (p : Str) (f : StoredFunc H),
      (rtr.Routes.any (fun r => r.Pattern.source == (mc p).source)) = true →
      addRoute mc srt rtr p f = (some ("Key exists: ".toList ++ p), rtr)) ∧
    (∀ (mc : Str → GoRegexp) (srt : List (Route H) → List (Route H))
        (rtr : Router H) (p : Str) (f : H),
      scanTokens p = [] → (quoteMeta p == p) = true →
      (rtr.FixedRoutes.lookup p).isSome = true →
      handleFunc mc srt rtr p f = rtr) ∧
    (∀ (mc : Str → GoRegexp) (srt : List (Route H) → List (Route H))
        (rtr : Router H) (p : Str) (f : H),
      scanTokens p = [] → (quoteMeta p == p) = false → rtr.CheckRegexp = true →
      (rtr.Routes.any (fun r => r.Pattern.source == (mc p).source)) = true →
      handleFunc mc srt rtr p f = rtr) := by
  refine ⟨?_, ?_, ?_, ?_⟩
  · intro rtr p f h
    simp [addFixedRoute, h]
  · intro mc srt rtr p f h
    simp [addRoute, h]
  · intro mc srt rtr p f htok hq h
    by_cases hc : rtr.CheckRegexp = true
    · simp [handleFunc, htok, hq, hc, addFixedRoute, h]
    · simp [handleFunc, htok, hc, addFixedRoute, h]
  · intro mc srt rtr p f htok hq hc h
    simp [handleFunc, htok, hq, hc, addRoute, h]

/-- C2 counterexample: the second registration of the literal `/a` through
the public entry point is observationally a no-op — `HandleFunc` returns
nothing and leaves the router exactly as it was, so no
`DuplicateRouteError` reaches the caller, even though the internal
`addFixedRoute` did produce the error. -/
theorem c2_counterexample :
    (handleFunc goCompile stdSort
        (handleFunc (H := Nat) goCompile stdSort (newRouter 0) "/a".toList 1) "/a".toList 2 =
      handleFunc (H := Nat) goCompile stdSort (newRouter 0) "/a".toList 1) ∧
    ((addFixedRoute
        (handleFunc (H := Nat) goCompile stdSort (newRouter 0) "/a".toList 1) "/a".toList 2).1 =
      some "Key exists: /a".toList) := by
  exact ⟨rfl, rfl⟩

theorem c2_witness :
    (addFixedRoute (H := Nat)
        (addFixedRoute (newRouter 0) "/a".toList 1).2 "/a".toList 2 =
      (some "Key exists: /a".toList, (addFixedRoute (H := Nat) (newRouter 0) "/a".toList 1).2)) ∧
    (handleFunc goCompile stdSort
        (handleFunc (H := Nat) goCompile stdSort (newRouter 0) "/b$".toList 1) "/b$".toList 2 =
      handleFunc (H := Nat) goCompile stdSort (newRouter 0) "/b$".toList 1) := by
  constructor
  · exact c2_duplicate_error_internal_only.1 _ _ 2 (by decide)
  · exact c2_duplicate_error_internal_only.2.2.2 goCompile stdSort _ _ 2
      (by decide) (by decide) rfl (by decide)

/-! ### Claim C1 -/

/-- C1 (amended): after every `addRoute` (registerPattern) call the pattern
list is ordered by descending textual length of the compiled matcher's
source — both for a single call starting from a sorted list and along any
sequence of calls starting from a fresh router — for every implementation
of `sort.Sort` satisfying its contract.  The relative order of entries whose
sources have equal length is whatever that implementation produces:
`sort.Sort` is documented as not stable, so insertion order among
equal-length entries is not preserved in general (see the counterexample). -/
theorem c1_pattern_list_sorted_desc :
    (∀ (srt : List (Route H) → List (Route H)), GoSortOK srt →
      ∀ (mc : Str → GoRegexp) (rtr : Router H) (p : Str) (f : StoredFunc H),
        sortedByLenDesc rtr.Routes = true →
        sortedByLenDesc ((addRoute mc srt rtr p f).2).Routes = true) ∧
    (∀ (srt : List (Route H) → List (Route H)), GoSortOK srt →
      ∀ (mc : Str → GoRegexp) (h0 : H) (calls : List (Str × StoredFunc H)),
        sortedByLenDesc
          ((calls.foldl (fun r c => (addRoute mc srt r c.1 c.2).2) (newRouter h0)).Routes)
          = true) := by
  have step : ∀ (srt : List (Route H) → List (Route H)), GoSortOK srt →
      ∀ (mc : Str → GoRegexp) (rtr : Router H) (p : Str) (f : StoredFunc H),
        sortedByLenDesc rtr.Routes = true →
        sortedByLenDesc ((addRoute mc srt rtr p f).2).Routes = true := by
    intro srt hsrt mc rtr p f hsorted
    by_cases hx : (rtr.Routes.any (fun r => r.Pattern.source == (mc p).source)) = true
    · simpa [addRoute, hx] using hsorted
    · simp only [addRoute, hx, Bool.false_eq_true, if_false]
      exact (hsrt _).2
  refine ⟨step, ?_⟩
  intro srt hsrt mc h0 calls
  suffices haux : ∀ (calls : List (Str × StoredFunc H)) (rtr : Router H),
      sortedByLenDesc rtr.Routes = true →
      sortedByLenDesc
        ((calls.foldl (fun r c => (addRoute mc srt r c.1 c.2).2) rtr).Routes) = true by
    exact haux calls (newRouter h0) (by simp [newRouter, sortedByLenDesc, chainB])
  intro calls
  induction calls with
  | nil => intro rtr h; simpa using h
  | cons c cs ih =>
    intro rtr h
    simpa using ih _ (step srt hsrt mc rtr c.1 c.2 h)

/-- C1 counterexample: the `sort.Sort` contract does not make the re-sort
stable.  `tieReversingSort` satisfies the contract, yet under it the third
registration reorders the two pre-existing equal-length entries: after
registering `aa` then `bb` the list is `[bb, aa]`, and registering `ccccc`
turns it into `[ccccc, aa, bb]` — `bb` and `aa` do not keep the relative
order they had before the call. -/
theorem c1_counterexample :
    GoSortOK (tieReversingSort (H := Nat)) ∧
    ((((addRoute goCompile tieReversingSort
          (addRoute goCompile tieReversingSort
            (addRoute (H := Nat) goCompile tieReversingSort
              (newRouter 0) "aa".toList (.plain 1)).2
            "bb".toList (.plain 2)).2
          "ccccc".toList (.plain 3)).2).Routes.map (fun r => r.Pattern.source) =
        ["ccccc".toList, "aa".toList, "bb".toList]) ∧
     (((addRoute goCompile tieReversingSort
          (addRoute (H := Nat) goCompile tieReversingSort
            (newRouter 0) "aa".toList (.plain 1)).2
          "bb".toList (.plain 2)).2).Routes.map (fun r => r.Pattern.source) =
        ["bb".toList, "aa".toList])) :=
  ⟨tieReversingSort_ok, by decide, by decide⟩

theorem c1_witness :
    sortedByLenDesc
      (((([("aa".toList, StoredFunc.plain 1), ("bb".toList, StoredFunc.plain 2),
           ("ccccc".toList, StoredFunc.plain 3)] : List (Str × StoredFunc Nat)).foldl
          (fun r c => (addRoute goCompile stdSort r c.1 c.2).2) (newRouter 0))).Routes)
      = true :=
  c1_pattern_list_sorted_desc.2 stdSort stdSort_ok goCompile 0 _

/-! ### Claim C4 -/

/-- C4 (code bug): `Parse` populates the multi-value map under the test
`len(mValues) > 1` where `mValues` is the FIRST VALUE STRING `m[k]` — the
byte length of one value — not the number of stored values.  With merged
store `name ↦ ["a", "bob"]` (two values, first of length 1) the key is
absent from the multi-value map although the claim requires
`["bob"]`; with `name ↦ ["alice"]` (one value of length 5) the multi-value
map contains `name ↦ []` although the claim requires the key to be absent.
The spec's own `alice`/`bob` instance happens to hold because
`len("alice") > 1`. -/
theorem c4_parse_checks_string_length_not_value_count :
    (parseSingle [("name".toList, "a".toList), ("name".toList, "bob".toList)] "name".toList =
      some "a".toList) ∧
    (parseMulti [("name".toList, "a".toList), ("name".toList, "bob".toList)] "name".toList =
      none) ∧
    (parseMulti [("name".toList, "alice".toList)] "name".toList = some []) ∧
    (parseSingle [("name".toList, "alice".toList), ("name".toList, "bob".toList)] "name".toList =
      some "alice".toList) ∧
    (parseMulti [("name".toList, "alice".toList), ("name".toList, "bob".toList)] "name".toList =
      some ["bob".toList]) :=
  ⟨by decide, by decide, by decide, by decide, by decide⟩

/-! ### Claim C5 -/

/-- C5 (confirmed): each dispatch invokes exactly one handler (`serveHTTP`
returns the single invocation performed), chosen by: the fixed-route map
entry for the (possibly normalized) path if present; otherwise the first
entry of the stored pattern list whose matcher matches that path; otherwise
the configured not-found handler. -/
theorem c5_resolution_order (rtr : Router H) (req : Request) :
    (∀ f, rtr.FixedRoutes.lookup (effectivePath rtr.Strip req.path) = some f →
      serveHTTP rtr req = .ok (f, req)) ∧
    (rtr.FixedRoutes.lookup (effectivePath rtr.Strip req.path) = none →
      ((∀ (i : Nat) (hi : i < rtr.Routes.length),
        ((rtr.Routes.take i).all
          (fun rr => !(rr.Pattern.matchString (effectivePath rtr.Strip req.path)))) = true →
        (rtr.Routes.get ⟨i, hi⟩).Pattern.matchString (effectivePath rtr.Strip req.path) = true →
        serveHTTP rtr req = invokeFunc (rtr.Routes.get ⟨i, hi⟩).Func req) ∧
      ((∀ rr ∈ rtr.Routes, rr.Pattern.matchString (effectivePath rtr.Strip req.path) = false) →
        serveHTTP rtr req = .ok (rtr.NotFound, req)))) := by
  refine ⟨?_, fun hnone => ⟨?_, ?_⟩⟩
  · intro f hf
    simp [serveHTTP, hf]
  · intro i hi hskip hmatch
    have hfind := findRouteLoop_first rtr.Routes (effectivePath rtr.Strip req.path) i hi hskip hmatch
    simp [serveHTTP, hnone, hfind]
  · intro hall
    have hfind := findRouteLoop_none rtr.Routes (effectivePath rtr.Strip req.path) hall
    simp [serveHTTP, hnone, hfind]

theorem c5_witness :
    (serveHTTP (H := Nat)
        { FixedRoutes := [("/f".toList, 5)], Routes := [], Strip := false, Log := false,
          CheckRegexp := true, NotFound := 9 } { path := "/f".toList, query := [] } =
      .ok (5, { path := "/f".toList, query := [] })) ∧
    (serveHTTP
        ((addRoute goCompile stdSort
          (addRoute (H := Nat) goCompile stdSort (newRouter 9) "/aaaa$".toList (.plain 1)).2
          "/b$".toList (.plain 2)).2)
        { path := "/b".toList, query := [] } =
      invokeFunc
        ((((addRoute goCompile stdSort
            (addRoute (H := Nat) goCompile stdSort (newRouter 9) "/aaaa$".toList (.plain 1)).2
            "/b$".toList (.plain 2)).2).Routes.get ⟨1, by decide⟩).Func)
        { path := "/b".toList, query := [] }) ∧
    (serveHTTP (H := Nat) (newRouter 7) { path := "/does-not-exist".toList, query := [] } =
      .ok (7, { path := "/does-not-exist".toList, query := [] })) := by
  refine ⟨?_, ?_, ?_⟩
  · exact (c5_resolution_order _ _).1 5 (by decide)
  · exact (((c5_resolution_order _ _).2 (by decide)).1) 1 (by decide) (by decide) (by decide)
  · exact (((c5_resolution_order _ _).2 (by decide)).2) (by decide)

/-! ### Claim C6 -/

/-- C6 (confirmed): with the strip option enabled, a dispatched path longer
than the one-byte root that ends with the separator is matched with one
trailing separator removed (so `/foo/` matches a route registered as
`/foo`), while the root path `/` is never stripped; with the option disabled
— the default set by `NewRouter` — no normalization occurs. -/
theorem c6_strip_trailing_separator (h0 : H) :
    (∀ p : Str, effectivePath false p = p) ∧
    ((newRouter h0).Strip = false) ∧
    (∀ strip : Bool, effectivePath strip "/".toList = "/".toList) ∧
    (∀ p : Str, 1 < goLen p → hasSuffix p "/".toList = true →
      effectivePath true p = trimSuffix p "/".toList) ∧
    (∀ (rtr : Router H) (req : Request) (f : H), rtr.Strip = true →
      rtr.FixedRoutes.lookup (effectivePath true req.path) = some f →
      serveHTTP rtr req = .ok (f, req)) := by
  refine ⟨?_, rfl, ?_, ?_, ?_⟩
  · intro p
    simp [effectivePath]
  · intro strip
    cases strip <;> decide
  · intro p hlen hsuf
    have hcond : (true && decide (1 < goLen p) && hasSuffix p "/".toList) = true := by
      simp only [Bool.true_and, Bool.and_eq_true, decide_eq_true_eq]
      exact ⟨hlen, hsuf⟩
    unfold effectivePath
    rw [if_pos hcond]
  · intro rtr req f hstrip hf
    rw [← hstrip] at hf
    simp [serveHTTP, hf]

theorem c6_witness :
    (serveHTTP (H := Nat)
        { handleFunc goCompile stdSort (newRouter 9) "/foo".toList 7 with Strip := true }
        { path := "/foo/".toList, query := [] } =
      .ok (7, { path := "/foo/".toList, query := [] })) ∧
    (effectivePath true "/foo/".toList = trimSuffix "/foo/".toList "/".toList) ∧
    (effectivePath true "/".toList = "/".toList) ∧
    (effectivePath false "/foo/".toList = "/foo/".toList) := by
  refine ⟨?_, ?_, ?_, ?_⟩
  · exact (c6_strip_trailing_separator (H := Nat) 9).2.2.2.2 _ _ 7 rfl (by decide)
  · exact (c6_strip_trailing_separator (H := Nat) 9).2.2.2.1 _ (by decide) (by decide)
  · exact (c6_strip_trailing_separator (H := Nat) 9).2.2.1 true
  · exact (c6_strip_trailing_separator (H := Nat) 9).1 _

/-! ### Claim C3 -/

/-- C3 counterexample: the substituted capturing pattern is
`([A-z0-9_].*?)`, which is not equivalent to "one or more of any character,
lazily matched": a value whose first character lies outside `[A-z0-9_]`
(here `-`) is rejected by the compiled matcher but accepted under the spec's
wildcard `(.+?)`; moreover, for a declaration containing parentheses of its
own, the matcher has more capturing groups than `varNames.length`. -/
theorem c3_counterexample :
    (processParams "/x/<v>$".toList = ("/x/([A-z0-9_].*?)$".toList, ["v".toList])) ∧
    ((goCompile (processParams "/x/<v>$".toList).1).matchString "/x/-a".toList = false) ∧
    (specNewPattern "/x/<v>$".toList = "/x/(.+?)$".toList) ∧
    ((goCompile (specNewPattern "/x/<v>$".toList)).matchString "/x/-a".toList = true) ∧
    (processParams "/(a)/<x>".toList = ("/(a)/([A-z0-9_].*?)".toList, ["x".toList])) ∧
    (countCaptureGroups (processParams "/(a)/<x>".toList).1 = 2) ∧
    (((processParams "/(a)/<x>".toList).2).length = 1) :=
  ⟨by decide, by decide, by decide, by decide, by decide, by decide, by decide⟩

/-- C3 (amended): for every variable declaration with explicit token
structure, the compiled matcher equals the declaration with each variable
token replaced, in left-to-right order, by the capturing pattern
`([A-z0-9_].*?)` — one character of the class `[A-z0-9_]` followed by zero
or more of any character, lazily matched, capturing — and, provided the
declaration itself contributes no capturing group (no `(` and no `\` in its
literal chunks), the matcher's number of capturing groups equals
`varNames.length`, group `i` corresponding to `varNames[i]`. -/
theorem c3_param_substitution (c0 : Str) (parts : List (Str × Str))
    (hok : partsOk c0 parts = true)
    (hg0 : grpFree c0 = true) (hgs : ∀ p ∈ parts, grpFree p.2 = true) :
    (processParams (renderDecl c0 parts) =
      (c0 ++ renderRepl parts, parts.map (fun p => p.1))) ∧
    (countCaptureGroups (processParams (renderDecl c0 parts)).1 =
      ((processParams (renderDecl c0 parts)).2).length) := by
  have h := processParams_render c0 parts hok
  refine ⟨h, ?_⟩
  rw [h]
  simpa using countCaptureGroups_renderRepl parts c0 hg0 hgs

theorem c3_witness :
    (processParams "/u/<id>/k".toList = ("/u/([A-z0-9_].*?)/k".toList, ["id".toList])) ∧
    (countCaptureGroups (processParams "/u/<id>/k".toList).1 =
      ((processParams "/u/<id>/k".toList).2).length) := by
  have h := c3_param_substitution "/u/".toList [("id".toList, "/k".toList)]
    (by decide) (by decide) (by decide)
  exact ⟨h.1, h.2⟩

/-! ### Claim C7 -/

theorem scanAux_token_shape (s : Str) : ∀ (st : Option Str),
    (∀ acc, st = some acc → nameOk acc = true) →
    ∀ tok ∈ scanAux s st, ∃ n : Str, tok = '<' :: (n ++ ['>']) ∧ nameOk n = true := by
  induction s with
  | nil => intro st _ tok htok; simp [scanAux] at htok
  | cons c rest ih =>
    intro st hst tok htok
    match st with
    | none =>
      by_cases hc : c = '<'
      · rw [scanAux, if_pos hc] at htok
        exact ih (some []) (by intro acc h; cases h; decide) tok htok
      · rw [scanAux, if_neg hc] at htok
        exact ih none (by intro acc h; cases h) tok htok
    | some acc =>
      have hacc : nameOk acc = true := hst acc rfl
      by_cases hgt : c = '>'
      · rw [scanAux, if_pos hgt] at htok
        rcases List.mem_cons.mp htok with h | h
        · refine ⟨acc.reverse, h, ?_⟩
          simpa [nameOk] using hacc
        · exact ih none (by intro a ha; cases ha) tok h
      · rw [scanAux, if_neg hgt] at htok
        by_cases hpc : paramChar c = true
        · rw [if_pos hpc] at htok
          refine ih (some (c :: acc)) ?_ tok htok
          intro a ha
          cases ha
          simpa [nameOk, hpc] using hacc
        · rw [if_neg hpc] at htok
          by_cases hlt : c = '<'
          · rw [if_pos hlt] at htok
            exact ih (some []) (by intro a ha; cases ha; decide) tok htok
          · rw [if_neg hlt] at htok
            exact ih none (by intro a ha; cases ha) tok htok

/-- C7 counterexample: the name class used by the compiler is `[A-z0-9_]`
(router.go line 14), not the `[A-Za-z0-9_]` stated: `<^>` is recognized as a
variable token and yields the variable name `^`, although `^` is not an
`[A-Za-z0-9_]` character. -/
theorem c7_counterexample :
    (scanTokens "<^>".toList = ["<^>".toList]) ∧
    ((processParams "<^>".toList).2 = ["^".toList]) ∧
    (specVarNameChar '^' = false) ∧
    (paramChar '^' = true) :=
  ⟨by decide, by decide, by decide, by decide⟩

theorem pairVars_zip : ∀ (vns vs : List Str), vns.length ≤ vs.length →
    pairVars vns vs = some (vns.zip vs) := by
  intro vns
  induction vns with
  | nil => intro vs _; simp [pairVars]
  | cons vn t ih =>
    intro vs h
    cases vs with
    | nil => simp at h
    | cons v vs' =>
      have hrec := ih vs' (by simpa using h)
      simp only [pairVars, hrec, Option.map_some]
      rfl

/-- C7 (amended): the variable tokens recognized by the compiler are exactly
the non-overlapping, left-to-right, lazily matched occurrences of `<name>`
with `name` in the class `[A-z0-9_]` (which also contains the ASCII
characters between `Z` and `a`): on a declaration with explicit token
structure the scanner returns exactly the listed tokens in order and
`varNames` is the list of inner names in the same order; every token the
scanner ever returns is of the form `<name>` with `name` drawn from that
class; and a matching path's values are extracted in that same order — the
variable carrier pairs `VarNames[i]` with capture `i` of the submatch list,
positionally, when it builds the per-request store. -/
theorem c7_token_grammar :
    (∀ (c0 : Str) (parts : List (Str × Str)), partsOk c0 parts = true →
      (scanTokens (renderDecl c0 parts) = parts.map (fun p => '<' :: (p.1 ++ ['>']))) ∧
      ((processParams (renderDecl c0 parts)).2 = parts.map (fun p => p.1))) ∧
    (∀ (d : Str), ∀ tok ∈ scanTokens d,
      ∃ n : Str, tok = '<' :: (n ++ ['>']) ∧ nameOk n = true) ∧
    (∀ (pr : ParameterRoute H) (req : Request) (sub : List Str),
      pr.Regexp.findStringSubmatch req.path = some sub →
      pr.VarNames.length ≤ (sub.drop 1).length →
      prServeHTTP pr req =
        .ok (pr.Func,
          { req with query := sortBy keyLe (pr.VarNames.zip (sub.drop 1)) ++ req.query })) := by
  refine ⟨?_, ?_, ?_⟩
  · intro c0 parts hok
    exact ⟨scanTokens_render parts c0 hok, by rw [processParams_render c0 parts hok]⟩
  · intro d tok htok
    exact scanAux_token_shape d none (by intro a ha; cases ha) tok htok
  · intro pr req sub hfind hlen
    simp only [prServeHTTP, hfind, pairVars_zip _ _ hlen]

theorem c7_witness :
    (scanTokens "/u/<id>/k".toList = ["<id>".toList]) ∧
    ((processParams "/u/<id>/k".toList).2 = ["id".toList]) ∧
    (∃ n : Str, "<id>".toList = '<' :: (n ++ ['>']) ∧ nameOk n = true) ∧
    ((processParams "/p/<a>/<b>$".toList).2 = ["a".toList, "b".toList]) ∧
    (prServeHTTP (H := Nat)
        { Func := 1, VarNames := ["a".toList, "b".toList],
          Regexp := goCompile "/p/([A-z0-9_].*?)/([A-z0-9_].*?)$".toList }
        { path := "/p/x/y".toList, query := [] } =
      .ok (1, { path := "/p/x/y".toList,
                query := [("a".toList, "x".toList), ("b".toList, "y".toList)] })) := by
  have h := (c7_token_grammar (H := Nat)).1 "/u/".toList [("id".toList, "/k".toList)] (by decide)
  have h2 := (c7_token_grammar (H := Nat)).1 "/p/".toList
    [("a".toList, "/".toList), ("b".toList, "$".toList)] (by decide)
  have h3 := (c7_token_grammar (H := Nat)).2.2
    { Func := 1, VarNames := ["a".toList, "b".toList],
      Regexp := goCompile "/p/([A-z0-9_].*?)/([A-z0-9_].*?)$".toList }
    { path := "/p/x/y".toList, query := [] }
    ["/p/x/y".toList, "x".toList, "y".toList]
    (by decide) (by decide)
  refine ⟨h.1, h.2, ?_, h2.2, h3⟩
  exact (c7_token_grammar (H := Nat)).2.1 "/u/<id>/k".toList "<id>".toList (by decide)

/-! ### Claim C9 -/

theorem pairVars_length : ∀ (vns vs : List Str) (l : List (Str × Str)),
    pairVars vns vs = some l → vns.length ≤ vs.length := by
  intro vns
  induction vns with
  | nil => intro vs l _; simp
  | cons vn t ih =>
    intro vs l h
    cases vs with
    | nil => simp [pairVars] at h
    | cons v vs' =>
      simp only [pairVars] at h
      cases hrec : pairVars t vs' with
      | none => rw [hrec] at h; simp at h
      | some l' =>
        simp only [List.length_cons, Nat.succ_le_succ_iff]
        exact ih vs' l' hrec

/-- C9 (confirmed): the variable carrier re-runs the match against the
request's original (unmodified) path and slices/indexes the result with no
nil or length guard, so it does not fault only if the original path itself
matches the compiled pattern and yields at least `VarNames.length` captures
— and a match of the stripped path does not guarantee this: with the route
declared `/x/<v>y$` and `Strip` enabled, the request path `/x/ay/` is
dispatched to the carrier (its stripped form `/x/ay` matches) and the
carrier faults, because the original path does not match and Go's
`FindStringSubmatch(...)[1:]` on `nil` panics. -/
theorem c9_carrier_rematch_fault :
    (∀ (pr : ParameterRoute H) (req : Request) (res : H × Request),
      prServeHTTP pr req = .ok res →
      ∃ sub, pr.Regexp.findStringSubmatch req.path = some sub ∧
        pr.VarNames.length ≤ (sub.drop 1).length) ∧
    (((goCompile "/x/([A-z0-9_].*?)y$".toList).matchString "/x/ay".toList = true) ∧
     (serveHTTP (H := Nat)
        { handleFunc goCompile stdSort (newRouter 0) "/x/<v>y$".toList 1 with Strip := true }
        { path := "/x/ay/".toList, query := [] } = .error ())) := by
  constructor
  · intro pr req res h
    cases hfind : pr.Regexp.findStringSubmatch req.path with
    | none => simp [prServeHTTP, hfind] at h
    | some sub =>
      cases hpv : pairVars pr.VarNames (sub.drop 1) with
      | none =>
        rw [List.drop_one] at hpv
        simp [prServeHTTP, hfind, hpv] at h
      | some form => exact ⟨sub, rfl, pairVars_length _ _ form hpv⟩
  · exact ⟨by decide, by rfl⟩

theorem c9_witness :
    ∃ sub,
      (goCompile "/x/([A-z0-9_].*?)y$".toList).findStringSubmatch "/x/ay".toList = some sub ∧
      1 ≤ (sub.drop 1).length := by
  have h := (c9_carrier_rematch_fault (H := Nat)).1
    { Func := 1, VarNames := ["v".toList], Regexp := goCompile "/x/([A-z0-9_].*?)y$".toList }
    { path := "/x/ay".toList, query := [] }
    (1, { path := "/x/ay".toList, query := [("v".toList, "a".toList)] })
    (by rfl)
  simpa using h

/-! ### Claim C10 -/

theorem renderRepl_zip_eq : ∀ (cs n1 n2 : List Str), n1.length = cs.length →
    n2.length = cs.length → renderRepl (n1.zip cs) = renderRepl (n2.zip cs) := by
  intro cs
  induction cs with
  | nil =>
    intro n1 n2 _ _
    simp [List.zip_nil_right]
  | cons c cs' ih =>
    intro n1 n2 h1 h2
    cases n1 with
    | nil => simp at h1
    | cons a t1 =>
      cases n2 with
      | nil => simp at h2
      | cons b t2 =>
        have hih := ih t1 t2 (by simpa using h1) (by simpa using h2)
        show renderRepl ((a, c) :: t1.zip cs') = renderRepl ((b, c) :: t2.zip cs')
        simp only [renderRepl]
        rw [hih]

/-- C10 (confirmed): two variable declarations that differ only in their
variable names compile to identical pattern source text; the second
registration is detected as a duplicate by `addRoute`, whose error is
discarded inside the registration entry point, so the second handler is
never stored, the router is left exactly as after the first registration,
and every matching request dispatches to the first route's carrier, carrying
the first route's handler and variable names. -/
theorem c10_duplicate_varnames_first_wins
    (mc : Str → GoRegexp)
    (srt : List (Route H) → List (Route H)) (hsrt : GoSortOK srt)
    (h0 h1 h2 : H) (c0 : Str) (chunks names1 names2 : List Str)
    (hn1 : names1.length = chunks.length) (hn2 : names2.length = chunks.length)
    (hne : chunks ≠ [])
    (hok1 : partsOk c0 (names1.zip chunks) = true)
    (hok2 : partsOk c0 (names2.zip chunks) = true) :
    ((processParams (renderDecl c0 (names2.zip chunks))).1 =
      (processParams (renderDecl c0 (names1.zip chunks))).1) ∧
    (handleFunc mc srt (handleFunc mc srt (newRouter h0) (renderDecl c0 (names1.zip chunks)) h1)
        (renderDecl c0 (names2.zip chunks)) h2 =
      handleFunc mc srt (newRouter h0) (renderDecl c0 (names1.zip chunks)) h1) ∧
    ((handleFunc mc srt (newRouter h0) (renderDecl c0 (names1.zip chunks)) h1).FixedRoutes
      = []) ∧
    ((handleFunc mc srt (newRouter h0) (renderDecl c0 (names1.zip chunks)) h1).Routes =
      [{ Pattern := mc (c0 ++ renderRepl (names1.zip chunks)),
         Func := .carrier { Func := h1, VarNames := names1,
                            Regexp := mc (c0 ++ renderRepl (names1.zip chunks)) } }]) ∧
    (∀ req : Request,
      (mc (c0 ++ renderRepl (names1.zip chunks))).matchString req.path = true →
      serveHTTP (handleFunc mc srt (newRouter h0) (renderDecl c0 (names1.zip chunks)) h1) req =
        prServeHTTP { Func := h1, VarNames := names1,
                      Regexp := mc (c0 ++ renderRepl (names1.zip chunks)) } req) := by
  have hpp1 := processParams_render c0 (names1.zip chunks) hok1
  have hpp2 := processParams_render c0 (names2.zip chunks) hok2
  have hmap1 : (names1.zip chunks).map (fun p => p.1) = names1 := by
    simpa using List.map_fst_zip names1 chunks (le_of_eq hn1)
  have hrr : renderRepl (names2.zip chunks) = renderRepl (names1.zip chunks) :=
    renderRepl_zip_eq chunks names2 names1 hn2 hn1
  have hzip1 : names1.zip chunks ≠ [] := by
    cases chunks with
    | nil => exact absurd rfl hne
    | cons c cs =>
      cases names1 with
      | nil => simp at hn1
      | cons a t => simp
  have hzip2 : names2.zip chunks ≠ [] := by
    cases chunks with
    | nil => exact absurd rfl hne
    | cons c cs =>
      cases names2 with
      | nil => simp at hn2
      | cons a t => simp
  have htok1 : 0 < (scanTokens (renderDecl c0 (names1.zip chunks))).length := by
    rw [scanTokens_render _ _ hok1]
    simpa [List.length_pos] using hzip1
  have htok2 : 0 < (scanTokens (renderDecl c0 (names2.zip chunks))).length := by
    rw [scanTokens_render _ _ hok2]
    simpa [List.length_pos] using hzip2
  set np : Str := c0 ++ renderRepl (names1.zip chunks) with hnp
  have hp1 : processParams (renderDecl c0 (names1.zip chunks)) = (np, names1) := by
    rw [hpp1, hmap1]
  have hp2first : (processParams (renderDecl c0 (names2.zip chunks))).1 = np := by
    rw [hpp2, hrr]
  have hr1 : handleFunc mc srt (newRouter h0) (renderDecl c0 (names1.zip chunks)) h1 =
      { newRouter h0 with
        Routes := [{ Pattern := mc np,
                     Func := .carrier { Func := h1, VarNames := names1, Regexp := mc np } }] } := by
    rw [handleFunc]
    rw [if_pos htok1]
    rw [addProcessedParameterRoute, hp1]
    rw [addRoute]
    simp only [newRouter, List.any_nil, Bool.false_eq_true, if_false, List.nil_append]
    have hperm := (hsrt [Route.mk (mc np)
        (StoredFunc.carrier (ParameterRoute.mk h1 names1 (mc np)))]).1
    rw [List.perm_singleton] at hperm
    rw [hperm]
  have hp1first : (processParams (renderDecl c0 (names1.zip chunks))).1 = np := by
    rw [hp1]
  refine ⟨hp2first.trans hp1first.symm, ?_, ?_, ?_, ?_⟩
  · rw [hr1, handleFunc, if_pos htok2, addProcessedParameterRoute]
    have hp2 : processParams (renderDecl c0 (names2.zip chunks)) =
        (np, names2) := by
      rw [hpp2, hrr]
      rw [show (names2.zip chunks).map (fun p => p.1) = names2 from by
        simpa using List.map_fst_zip names2 chunks (le_of_eq hn2)]
    rw [hp2]
    rw [addRoute]
    simp
  · rw [hr1]
    rfl
  · rw [hr1]
  · intro req hmatch
    rw [hr1]
    have heff : effectivePath false req.path = req.path := by
      simp [effectivePath]
    simp [serveHTTP, newRouter, findRouteLoop, heff, hmatch, invokeFunc]

theorem c10_witness :
    (handleFunc goCompile stdSort
        (handleFunc (H := Nat) goCompile stdSort (newRouter 0) "/x/<a>".toList 1)
        "/x/<b>".toList 2 =
      handleFunc (H := Nat) goCompile stdSort (newRouter 0) "/x/<a>".toList 1) ∧
    (serveHTTP (handleFunc (H := Nat) goCompile stdSort (newRouter 0) "/x/<a>".toList 1)
        { path := "/x/q".toList, query := [] } =
      prServeHTTP { Func := 1, VarNames := ["a".toList],
                    Regexp := goCompile "/x/([A-z0-9_].*?)".toList }
        { path := "/x/q".toList, query := [] }) := by
  have h := c10_duplicate_varnames_first_wins (H := Nat) goCompile stdSort stdSort_ok
    0 1 2 "/x/".toList [[]] ["a".toList] ["b".toList]
    rfl rfl (by decide) (by decide) (by decide)
  exact ⟨h.2.1, h.2.2.2.2 { path := "/x/q".toList, query := [] } (by decide)⟩

end Yar
